import Mathlib

/-!
Shallow embedding of the `rosa` CLI fragments under verification, together
with theorems settling the specification claims about them.

Go strings are modelled as `List Char` where character-level processing
matters (Go compares strings byte-wise; on UTF-8 the byte order coincides
with the code-point order, so `Char`-wise comparison is faithful), and as
`String` where strings are only stored and concatenated.  Go machine
integers are modelled as `Nat`/`Int`; every `%`/`/` in the source operates
on non-negative quantities far below any overflow boundary.  Every remote
call made by a command is modelled by an oracle field in an environment
structure: the oracle holds the outcome (`none` = success, `some msg` =
the reported error) that the external service would have produced.
-/

/-! ## Go standard-library string primitives used by the sources -/

/-- Model of Go `strings.Split(s, sep)` for a one-character separator:
splits around every occurrence of `sep`; the empty string yields `[[]]`,
exactly as Go returns a one-element slice holding the empty string. -/

def goSplit (sep : Char) : List Char → List (List Char)
  | [] => [[]]
  | c :: rest =>
    let r := goSplit sep rest
    if c = sep then [] :: r
    else
      match r with
      | t :: ts => (c :: t) :: ts
      | [] => [[c]]

/-- Model of Go `strings.Contains(s, sub)` for a one-character `sub`. -/

def goContainsChar (c : Char) (s : List Char) : Bool :=
  s.any (fun x => x = c)

/-- The Latin-1 part of Go's `unicode.IsSpace` table, which is what
`strings.TrimSpace` consults for ASCII/Latin-1 input: space, `\t`, `\n`,
`\v`, `\f`, `\r`, NEL (U+0085) and NBSP (U+00A0). -/

def isGoSpace (c : Char) : Bool :=
  c = ' ' || c = '\t' || c = '\n' || c.toNat = 11 || c.toNat = 12 ||
    c = '\r' || c.toNat = 133 || c.toNat = 160

/-- Model of Go `strings.TrimSpace`: drop leading and trailing whitespace. -/

def goTrimSpace (s : List Char) : List Char :=
  ((s.dropWhile isGoSpace).reverse.dropWhile isGoSpace).reverse

/-- Does `p` occur at the start of `s`?  (Go `strings.HasPrefix`.) -/

def goHasLeading : List Char → List Char → Bool
  | [], _ => true
  | _ :: _, [] => false
  | p :: ps, c :: cs => p = c && goHasLeading ps cs

/-- Model of Go `strings.TrimPrefix(s, pre)`: remove `pre` from the start
of `s` when present, otherwise return `s` unchanged. -/

def goTrimLeading (pre s : List Char) : List Char :=
  if goHasLeading pre s then s.drop pre.length else s

/-- Model of Go `strings.LastIndex(s, sub)` for a one-character `sub`,
returning `none` where Go returns `-1`. -/

def goLastIndex (c : Char) : List Char → Option Nat
  | [] => none
  | x :: xs =>
    match goLastIndex c xs with
    | some i => some (i + 1)
    | none => if x = c then some 0 else none

/-- Byte-wise (equivalently, code-point-wise) strict lexicographic order
on Go strings: the order used by Go's `<` / `>` on `string`. -/

def goStrLt : List Char → List Char → Bool
  | [], [] => false
  | [], _ :: _ => true
  | _ :: _, [] => false
  | a :: as, b :: bs =>
    if a < b then true
    else if b < a then false
    else goStrLt as bs

/-! ## pkg helper (src/unnamed/part_002): `RandomLabel` and `RankMapStringInt` -/

/-- ASCII code of `'a'` (source constant `aCode`). -/

def aCode : Nat := 97

/-- ASCII code of `'z'` (source constant `zCode`). -/

def zCode : Nat := 122

/-- ASCII code of `'0'` (source constant `zeroCode`). -/

def zeroCode : Nat := 48

/-- ASCII code of `'9'` (source constant `nineCode`). -/

def nineCode : Nat := 57

/-- Number of lowercase letters (source constant `letterCount`). -/

def letterCount : Nat := zCode - aCode + 1

/-- Number of decimal digits (source constant `digitCount`). -/

def digitCount : Nat := nineCode - zeroCode + 1

/-- The loop body of `RandomLabel`: Go decrements `size` and fills
`chars[size]`, so the list is built from the last byte backwards; the
accumulator holds the bytes already placed at indices `≥ n`. -/

def randomLabelLoop : Nat → Nat → List Nat → List Nat
  | 0, _, acc => acc
  | n + 1, value, acc =>
    if n % 2 = 0 then
      randomLabelLoop n (value / letterCount) ((aCode + value % letterCount) :: acc)
    else
      randomLabelLoop n (value / digitCount) ((zeroCode + value % digitCount) :: acc)

/-- Embedding of `helper.RandomLabel`.  The Go function draws one random
non-negative machine integer (`rand.Int()`): that draw is the `value`
argument here.  The result is the byte slice `chars` (all bytes are
ASCII, so `string(chars)` is character-for-character the same). -/

def RandomLabel (value size : Nat) : List Nat :=
  randomLabelLoop size value []

/-- The property claimed of each byte of a random label: lowercase ASCII
letter at even indices, ASCII digit at odd indices. -/

def labelByteOk (i x : Nat) : Prop :=
  if i % 2 = 0 then aCode ≤ x ∧ x ≤ zCode else zeroCode ≤ x ∧ x ≤ nineCode

/-- The comparison Go's first `sort.Slice` call in `RankMapStringInt`
establishes: entries ordered by non-increasing integer value. -/

def valueGE (a b : String × Int) : Prop := b.2 ≤ a.2

instance : DecidableRel valueGE := fun a b => inferInstanceAs (Decidable (b.2 ≤ a.2))

instance : IsTotal (String × Int) valueGE := ⟨fun a b => le_total b.2 a.2⟩

instance : IsTrans (String × Int) valueGE := ⟨fun _ _ _ h1 h2 => le_trans h2 h1⟩

/-- The comparison Go's second `sort.Slice` call in `RankMapStringInt`
establishes: keys ordered by strictly decreasing length, ties by
non-increasing lexicographic order. -/

def rankedLe (a b : String) : Prop :=
  b.length < a.length ∨ (a.length = b.length ∧ goStrLt a.toList b.toList = false)

instance : DecidableRel rankedLe := fun a b =>
  inferInstanceAs (Decidable (b.length < a.length ∨ (a.length = b.length ∧ goStrLt a.toList b.toList = false)))

/-- Embedding of `helper.RankMapStringInt`.  The Go map is modelled as the
association list of its entries in some iteration order; `sort.Slice` is
an unspecified comparison sort, modelled by `insertionSort` (any two
sorted permutations under the second, antisymmetric comparison coincide,
so the choice of algorithm and of map iteration order is immaterial —
which is exactly what `rankMapStringInt_keys_perm_eq` proves). -/

def RankMapStringInt (values : List (String × Int)) : List String :=
  let ss := List.insertionSort valueGE values
  let ranked := ss.map Prod.fst
  List.insertionSort rankedLe ranked

/-! ## cmd create ingress (src/unnamed/part_000): `getRouteSelector` -/

/-- Go map assignment `m[k] = v` on an association-list model of
`map[string]string`: overwrite the entry when the key is present,
append it otherwise. -/

def mapAssign (m : List (List Char × List Char)) (k v : List Char) :
    List (List Char × List Char) :=
  if m.any (fun p => p.1 = k) then
    m.map (fun p => if p.1 = k then (p.1, v) else p)
  else m ++ [(k, v)]

/-- The `for _, labelMatch := range strings.Split(labelMatch, ",")` loop of
`getRouteSelector`: each item must contain `'='`; its pieces around `'='`
give the key (`tokens[0]`) and value (`tokens[1]`), both trimmed. -/

def routeSelectorLoop :
    List (List Char) → List (List Char × List Char) →
      Except String (List (List Char × List Char))
  | [], acc => .ok acc
  | item :: rest, acc =>
    if goContainsChar '=' item then
      let tokens := goSplit '=' item
      routeSelectorLoop rest
        (mapAssign acc (goTrimSpace (tokens.getD 0 [])) (goTrimSpace (tokens.getD 1 [])))
    else
      .error "Expected key=value format for label-match"

/-- Embedding of `ingress.getRouteSelector`.  An `.ok` result models the
non-nil Go map (empty for empty input); `.error` models the `nil, err`
return. -/

def getRouteSelector (labelMatch : List Char) :
    Except String (List (List Char × List Char)) :=
  if labelMatch = [] then .ok []
  else routeSelectorLoop (goSplit ',' labelMatch) []

/-- The key the specification ascribes to an item: the whitespace-trimmed
text before the first `'='`. -/

def specKeyOf (item : List Char) : List Char :=
  goTrimSpace (item.takeWhile (fun c => c ≠ '='))

/-- The value the specification ascribes to an item: the whitespace-trimmed
text between the first and second `'='`, any text after a second `'='`
being discarded. -/

def specValueOf (item : List Char) : List Char :=
  goTrimSpace (((item.dropWhile (fun c => c ≠ '=')).drop 1).takeWhile (fun c => c ≠ '='))

/-! ## pkg interactive validation (src/pkg/interactive/validation.go) -/

/-- A Go `interface{}` value as passed to the survey validators: the
dynamic types that reach them in this codebase. -/

inductive GoValue where
  | goNil
  | goString (s : String)
  | goBool (b : Bool)
  | goInt (n : Int)
deriving DecidableEq

/-- Go `fmt.Sprintf("%v", val)` on the modelled dynamic values. -/

def govFormat : GoValue → String
  | .goNil => "<nil>"
  | .goString s => s
  | .goBool true => "true"
  | .goBool false => "false"
  | .goInt n => toString n

/-- Embedding of `interactive.IsURL`.  `url.ParseRequestURI` belongs to the
Go standard library, outside this repository: it is the
`parseRequestURI` oracle, returning `none` on success and `some err` on a
parse error.  For a string value, `fmt.Sprintf("%v", val)` is the string
itself. -/

def IsURL (parseRequestURI : String → Option String) : GoValue → Option String
  | .goNil => none
  | .goString s => if s = "" then none else parseRequestURI s
  | v => some ("can only validate strings, got " ++ govFormat v)

/-- Embedding of `interactive.IsCIDR`.  `net.ParseCIDR` is the Go standard
library's CIDR parser, modelled by the `parseCIDR` oracle. -/

def IsCIDR (parseCIDR : String → Option String) : GoValue → Option String
  | .goString s => parseCIDR s
  | v => some ("can only validate strings, got " ++ govFormat v)

/-! ## cmd create machinepool (src/cmd/create/machinepool) -/

/-- An AWS node pool as observed through the accessors the test uses. -/

structure AWSNodePool where
  instanceType : String
  additionalSecurityGroupIds : List String
  tags : List (String × String)
deriving DecidableEq

/-- Builder for `AWSNodePool`, holding the fields set so far. -/

structure AWSNodePoolBuilder where
  instanceType : String
  additionalSecurityGroupIds : List String
  tags : List (String × String)
deriving DecidableEq

/-- Modelled from the spec: `createAwsNodePoolBuilder` itself is not under
`src/` (only its test is).  Per the spec's testable property — "building a
node pool with given tags yields those tags on the result" — and the
test's assertions, the builder records the given instance type, security
group IDs and tags, and `build` reproduces them on the node pool. -/

def createAwsNodePoolBuilder (instanceType : String) (securityGroupIds : List String)
    (awsTags : List (String × String)) : AWSNodePoolBuilder :=
  ⟨instanceType, securityGroupIds, awsTags⟩

/-- Modelled from the spec: the external SDK's `Build` succeeds on every
builder assembled by `createAwsNodePoolBuilder` ("building a node pool
... yields those tags on the result"). -/

def AWSNodePoolBuilder.build (b : AWSNodePoolBuilder) : Except String AWSNodePool :=
  .ok ⟨b.instanceType, b.additionalSecurityGroupIds, b.tags⟩

/-! ## cmd delete oidc-config (src/cmd/dlt/oidcconfig/cmd.go) -/

/-- Source constant `prefixForPrivateKeySecret`. -/

def prefixForPrivateKeySecret : String := "rosa-private-key-"

/-- Source constant `secretsManagerService`. -/

def secretsManagerService : String := "secretsmanager"

/-- Modelled from the spec: `aws.SecretsManager`, from the external-client
wrapper package that is not under `src/`; the same service name the
source compares against at its other call site. -/

def awsSecretsManager : String := "secretsmanager"

/-- Modelled from the spec: `aws.ModeAuto` from the mode flag of the
strategy dispatch ("a mode ∈ \x7bauto, manual, hosted\x7d" selected "based on a
mode flag"); the auto mode string. -/

def ModeAuto : String := "auto"

/-- Modelled from the spec: `aws.ModeManual`; the manual mode string. -/

def ModeManual : String := "manual"

/-- Modelled from the spec: `aws.Modes`, the allowed values of the mode
flag. -/

def Modes : List String := [ModeAuto, ModeManual]

/-- Go `fmt` rendering of a `[]string` under the `%s` verb, as used by the
`weberr.Errorf("Invalid mode. Allowed values are %s", aws.Modes)` call. -/

def goFormatStringSlice (l : List String) : String :=
  "[" ++ String.intercalate " " l ++ "]"

/-- The error text produced for an unknown mode; it names the allowed
modes. -/

def invalidModeMessage : String :=
  "Invalid mode. Allowed values are " ++ goFormatStringSlice Modes

/-- The `OidcConfigInput` struct of the source. -/

structure OidcConfigInput where
  privateKeySecretArn : String
  bucketName : String
deriving DecidableEq

/-- The three implementations of the `DeleteOidcConfigStrategy` interface,
each holding its `oidcConfig` field. -/

inductive DeleteOidcConfigStrategy where
  | redHatHostedAuto (oidcConfig : OidcConfigInput)
  | auto (oidcConfig : OidcConfigInput)
  | manual (oidcConfig : OidcConfigInput)
deriving DecidableEq

/-- Embedding of `getOidcConfigStrategy`.  The `args.redHatHosted` global
read by the source is the explicit first argument. -/

def getOidcConfigStrategy (redHatHosted : Bool) (mode : String)
    (input : OidcConfigInput) : Except String DeleteOidcConfigStrategy :=
  if redHatHosted then .ok (.redHatHostedAuto input)
  else if mode = ModeAuto then .ok (.auto input)
  else if mode = ModeManual then .ok (.manual input)
  else .error invalidModeMessage

/-- The remote calls a delete-OIDC-config strategy can issue. -/

inductive RemoteCall where
  | ocmDeleteRedHatHostedOidcConfig
  | awsDeleteSecretInSecretsManager (secretArn : String)
  | awsDeleteS3Bucket (bucketName : String)
deriving DecidableEq

/-- Outcomes the external services would give to each possible remote
call of the delete-OIDC-config strategies (`none` = success). -/

structure OidcEnv where
  deleteRedHatHostedOidcConfig : Option String
  deleteSecretInSecretsManager : Option String
  deleteS3Bucket : Option String
deriving DecidableEq

/-- Result of running a strategy: the remote calls attempted in order,
each with the outcome the service reported; the commands printed (manual
mode only); and `some 1` when the strategy killed the process via
`os.Exit(1)`, `none` when it returned.  Spinner handling and `Infof`
progress messages perform no remote calls and are omitted. -/

structure ExecResult where
  calls : List (RemoteCall × Option String)
  printed : List String
  exited : Option Nat
deriving DecidableEq

/-- Embedding of `DeleteRedHatHostedOidcConfigAutoStrategy.execute`:
delete the Red Hat hosted OIDC configuration on the control plane, then
delete the private-key secret; exit on the first error. -/

def executeRedHatHostedAuto (env : OidcEnv) (cfg : OidcConfigInput) : ExecResult :=
  let r1 := env.deleteRedHatHostedOidcConfig
  let c1 := (RemoteCall.ocmDeleteRedHatHostedOidcConfig, r1)
  if r1.isSome then ⟨[c1], [], some 1⟩
  else
    let r2 := env.deleteSecretInSecretsManager
    let c2 := (RemoteCall.awsDeleteSecretInSecretsManager cfg.privateKeySecretArn, r2)
    if r2.isSome then ⟨[c1, c2], [], some 1⟩
    else ⟨[c1, c2], [], none⟩

/-- Embedding of `DeleteOidcConfigAutoStrategy.execute`: delete the
private-key secret, then delete the S3 bucket; exit on the first error. -/

def executeAuto (env : OidcEnv) (cfg : OidcConfigInput) : ExecResult :=
  let r1 := env.deleteSecretInSecretsManager
  let c1 := (RemoteCall.awsDeleteSecretInSecretsManager cfg.privateKeySecretArn, r1)
  if r1.isSome then ⟨[c1], [], some 1⟩
  else
    let r2 := env.deleteS3Bucket
    let c2 := (RemoteCall.awsDeleteS3Bucket cfg.bucketName, r2)
    if r2.isSome then ⟨[c1, c2], [], some 1⟩
    else ⟨[c1, c2], [], none⟩

/-- Modelled from the spec: the command-builder utility ("assembles
equivalent shell command strings for manual mode") lives in a package not
under `src/`.  A builder accumulates AWS CLI tokens in call order. -/

structure AwsCommandBuilder where
  service : String
  tokens : List String
deriving DecidableEq

/-- Modelled from the spec: `awscb.NewSecretsManagerCommandBuilder()`. -/

def newSecretsManagerCommandBuilder : AwsCommandBuilder := ⟨"secretsmanager", []⟩

/-- Modelled from the spec: `awscb.NewS3CommandBuilder()`. -/

def newS3CommandBuilder : AwsCommandBuilder := ⟨"s3", []⟩

/-- Modelled from the spec: `SetCommand` appends the subcommand token. -/

def AwsCommandBuilder.setCommand (b : AwsCommandBuilder) (c : String) : AwsCommandBuilder :=
  ⟨b.service, b.tokens ++ [c]⟩

/-- Modelled from the spec: `AddParam` appends `--name value`. -/

def AwsCommandBuilder.addParam (b : AwsCommandBuilder) (name value : String) : AwsCommandBuilder :=
  ⟨b.service, b.tokens ++ ["--" ++ name, value]⟩

/-- Modelled from the spec: `AddValueNoParam` appends a bare value. -/

def AwsCommandBuilder.addValueNoParam (b : AwsCommandBuilder) (value : String) : AwsCommandBuilder :=
  ⟨b.service, b.tokens ++ [value]⟩

/-- Modelled from the spec: `AddParamNoValue` appends `--name`. -/

def AwsCommandBuilder.addParamNoValue (b : AwsCommandBuilder) (name : String) : AwsCommandBuilder :=
  ⟨b.service, b.tokens ++ ["--" ++ name]⟩

/-- Modelled from the spec: `Build` renders `aws <service> <tokens...>`,
tokens separated by single spaces. -/

def AwsCommandBuilder.build (b : AwsCommandBuilder) : String :=
  b.tokens.foldl (fun acc tok => acc ++ " " ++ tok) ("aws " ++ b.service)

/-- Modelled from the spec: the `awscb` command name constants used by the
manual strategy (`DeleteSecret`, `SecretID`, `Region`, `Remove`,
`Recursive`, `RemoveBucket`), holding the AWS CLI spellings. -/

def DeleteSecret : String := "delete-secret"

/-- Modelled from the spec: `awscb.SecretID`. -/

def SecretID : String := "secret-id"

/-- Modelled from the spec: `awscb.Region`. -/

def Region : String := "region"

/-- Modelled from the spec: `awscb.Remove` (S3 `rm`). -/

def Remove : String := "rm"

/-- Modelled from the spec: `awscb.Recursive`. -/

def Recursive : String := "recursive"

/-- Modelled from the spec: `awscb.RemoveBucket` (S3 `rb`). -/

def RemoveBucket : String := "rb"

/-- Modelled from the spec: `awscb.JoinCommands` joins the emitted
commands into the single string passed to `fmt.Println`. -/

def JoinCommands (commands : List String) : String :=
  String.intercalate "\n" commands

/-- Embedding of `DeleteOidcConfigManualStrategy.execute`: build the three
equivalent AWS CLI commands and print them; no remote call is made and
the function returns normally.  `args.region` is the `region` argument. -/

def executeManual (region : String) (cfg : OidcConfigInput) : ExecResult :=
  let deleteSecretCommand :=
    (((newSecretsManagerCommandBuilder.setCommand DeleteSecret).addParam
        SecretID cfg.privateKeySecretArn).addParam Region region).build
  let emptyS3BucketCommand :=
    (((newS3CommandBuilder.setCommand Remove).addValueNoParam
        ("s3://" ++ cfg.bucketName)).addParamNoValue Recursive).build
  let deleteS3BucketCommand :=
    ((newS3CommandBuilder.setCommand RemoveBucket).addValueNoParam
        ("s3://" ++ cfg.bucketName)).build
  ⟨[], [deleteSecretCommand, emptyS3BucketCommand, deleteS3BucketCommand], none⟩

/-- Dispatch of `oidcConfigStrategy.execute(r)` over the three strategy
implementations. -/

def DeleteOidcConfigStrategy.execute :
    DeleteOidcConfigStrategy → OidcEnv → String → ExecResult
  | .redHatHostedAuto cfg, env, _ => executeRedHatHostedAuto env cfg
  | .auto cfg, env, _ => executeAuto env cfg
  | .manual cfg, _, region => executeManual region cfg

/-! ## Run traces and the uniform exit policy -/

/-- Outcome of running a command: the ordered trace of validation steps
and remote calls attempted (each with the reported error, if any) and the
process exit code.  `os.Exit(1)` yields exit code `1`; a `run` that
returns normally lets the Go runtime exit the process with code `0`. -/

structure RunResult (σ : Type) where
  trace : List (σ × Option String)
  exit : Nat
deriving DecidableEq

/-- All steps of a trace succeeded. -/

def TraceAllOk {σ : Type} (t : List (σ × Option String)) : Prop :=
  ∀ e ∈ t, e.2 = none

/-- The spec's uniform policy, as a property of one command run: the exit
code is `0` or `1`; it is `1` exactly when some attempted step reported
an error; and no step was attempted after a failed one (a reported error
can only sit at the very end of the trace). -/

def GoodRun {σ : Type} (r : RunResult σ) : Prop :=
  (r.exit = 0 ∨ r.exit = 1) ∧
  (r.exit = 1 ↔ ∃ e ∈ r.trace, e.2.isSome = true) ∧
  (∀ e ∈ r.trace.dropLast, e.2 = none)

/-! ## The `run` of cmd create ingress (src/unnamed/part_000) -/

/-- The slice of the fetched cluster the ingress `run` inspects:
`cluster.AWS().PrivateLink()` and whether `cluster.State()` equals
`cmv1.ClusterStateReady`. -/

structure IngressCluster where
  privateLink : Bool
  stateReady : Bool
deriving DecidableEq

/-- The validation steps and remote calls of the ingress `run`, in source
order. -/

inductive IngressStep where
  | promptLabelMatch
  | routeSelectorCheck
  | privateLinkCheck
  | clusterReadyCheck
  | promptPrivate
  | promptNlb
  | buildIngressCall
  | createIngressCall
deriving DecidableEq

/-- Environment of the ingress `run`: flag values, interactive-prompt
outcomes, the fetched cluster, and the outcomes of the two fallible
external operations (`ingressBuilder.Build()` and
`OCMClient.CreateIngress`).  `r.GetClusterKey()` and `r.FetchCluster()`
handle their own failures inside the runtime package (not under `src/`)
and are total here. -/

structure IngressEnv where
  interactiveEnabled : Bool
  labelMatchArg : List Char
  privateArg : Bool
  nlbArg : Bool
  clusterKey : String
  promptLabel : Except String (List Char)
  promptPrivate : Except String Bool
  promptNlb : Except String Bool
  cluster : IngressCluster
  buildIngress : Option String
  createIngress : Option String

/-- Tail of the ingress `run` after both booleans are settled: the pure
ingress-builder assembly (listening method, load-balancer type, route
selectors) constructs the request value, which no later step of this
command inspects; then `Build` and `CreateIngress` run in order. -/

def ingressAfterNlb (env : IngressEnv) (t : List (IngressStep × Option String)) :
    RunResult IngressStep :=
  match env.buildIngress with
  | some e =>
    ⟨t ++ [(.buildIngressCall,
        some ("Failed to create ingress for cluster '" ++ env.clusterKey ++ "': " ++ e))], 1⟩
  | none =>
    let t1 := t ++ [(.buildIngressCall, none)]
    match env.createIngress with
    | some e =>
      ⟨t1 ++ [(.createIngressCall,
          some ("Failed to add ingress to cluster '" ++ env.clusterKey ++ "': " ++ e))], 1⟩
    | none => ⟨t1 ++ [(.createIngressCall, none)], 0⟩

/-- Ingress `run` after the private flag is settled: the NLB question is
asked interactively when enabled. -/

def ingressAfterPrivate (env : IngressEnv) (t : List (IngressStep × Option String)) :
    RunResult IngressStep :=
  if env.interactiveEnabled then
    match env.promptNlb with
    | .error e => ⟨t ++ [(.promptNlb, some ("Expected a valid nlb value: " ++ e))], 1⟩
    | .ok _ => ingressAfterNlb env (t ++ [(.promptNlb, none)])
  else ingressAfterNlb env t

/-- Ingress `run` after the cluster checks: the private question is asked
interactively when enabled. -/

def ingressAfterReady (env : IngressEnv) (t : List (IngressStep × Option String)) :
    RunResult IngressStep :=
  if env.interactiveEnabled then
    match env.promptPrivate with
    | .error e => ⟨t ++ [(.promptPrivate, some ("Expected a valid private value: " ++ e))], 1⟩
    | .ok _ => ingressAfterPrivate env (t ++ [(.promptPrivate, none)])
  else ingressAfterPrivate env t

/-- Ingress `run` after the route selector is validated: the PrivateLink
and cluster-ready checks run in order. -/

def ingressAfterSelector (env : IngressEnv) (t : List (IngressStep × Option String)) :
    RunResult IngressStep :=
  if env.cluster.privateLink then
    ⟨t ++ [(.privateLinkCheck,
        some ("Cluster '" ++ env.clusterKey ++
          "' is PrivateLink and does not support creating new ingresses"))], 1⟩
  else
    let t1 := t ++ [(.privateLinkCheck, none)]
    if !env.cluster.stateReady then
      ⟨t1 ++ [(.clusterReadyCheck,
          some ("Cluster '" ++ env.clusterKey ++ "' is not yet ready"))], 1⟩
    else ingressAfterReady env (t1 ++ [(.clusterReadyCheck, none)])

/-- Ingress `run` once the label match string is settled: validate it via
`getRouteSelector`. -/

def ingressAfterLabel (env : IngressEnv) (t : List (IngressStep × Option String))
    (labelMatch : List Char) : RunResult IngressStep :=
  match getRouteSelector labelMatch with
  | .error e => ⟨t ++ [(.routeSelectorCheck, some e)], 1⟩
  | .ok _ => ingressAfterSelector env (t ++ [(.routeSelectorCheck, none)])

/-- Embedding of the ingress command's `run`: the label match comes from
the flag, or from the interactive prompt when interactive mode is on. -/

def ingressRun (env : IngressEnv) : RunResult IngressStep :=
  if env.interactiveEnabled then
    match env.promptLabel with
    | .error e =>
      ⟨[(.promptLabelMatch, some ("Expected a valid comma-separated list of attributes: " ++ e))], 1⟩
    | .ok lm => ingressAfterLabel env [(.promptLabelMatch, none)] lm
  else ingressAfterLabel env [] env.labelMatchArg

/-! ## The `run` of cmd delete oidc-config (src/cmd/dlt/oidcconfig/cmd.go) -/

/-- The slice of a parsed AWS ARN that `run`/`buildOidcConfigInput`
inspect: `arn.Parse` belongs to the AWS SDK, outside this repository, and
is an oracle of the run environment. -/

structure ArnParts where
  service : String
  region : String
deriving DecidableEq

/-- The validation steps and remote calls of the delete-oidc-config `run`,
in source order; `remote c` is a remote call issued by the selected
strategy. -/

inductive OidcStep where
  | getModeStep
  | rhHostedModeCheck
  | getRegionStep
  | promptModeStep
  | promptSecretArnStep
  | arnValidation
  | secretArnServiceCheck
  | parseSecretArn
  | inputServiceCheck
  | regionMatchCheck
  | getResourceIdStep
  | clustersUsingCall
  | clustersUsingGate
  | strategyDispatch
  | remote (c : RemoteCall)
  | oidcProviderRunStep
deriving DecidableEq

/-- Environment of the delete-oidc-config `run`: flag values and the
oracles for every external operation it can perform.
`oidcProviderRun` is modelled from the spec: the trailing
`oidcprovider.Cmd.Run` call executes the delete-oidc-provider subcommand,
which is not under `src/`; per the spec's uniform policy it reports an
error and exits 1, or completes and the process exits 0. -/

structure OidcRunEnv where
  getMode : Except String String
  redHatHosted : Bool
  getRegion : Except String String
  interactiveFlag : Bool
  modeFlagChanged : Bool
  promptMode : Except String String
  oidcPrivateKeySecretArnArg : String
  promptSecretArn : Except String String
  arnValidator : String → Option String
  arnParse : String → Except String ArnParts
  getResourceIdFromSecretArn : String → Except String String
  hasAClusterUsingOidcConfig : String → Except String Bool
  oidcEnv : OidcEnv
  oidcProviderRun : Option String

/-- The bucket-name computation of `buildOidcConfigInput`: strip the
private-key-secret naming part from the secret's resource name, and for
customer-hosted configs cut at the last `'-'` (dropping the random
suffix). -/

def bucketNameOf (redHatHosted : Bool) (secretResourceName : String) : String :=
  let bn := goTrimLeading prefixForPrivateKeySecret.toList secretResourceName.toList
  let bn2 :=
    if !redHatHosted then
      match goLastIndex '-' bn with
      | some i => bn.take i
      | none => bn
    else bn
  String.mk bn2

/-- Tail of the delete-oidc-config `run` after strategy dispatch: splice
the strategy's remote calls into the run trace; if the strategy exited the
process, so does the run, and otherwise the delete-oidc-provider
subcommand runs last. -/

def oidcAfterStrategy (env : OidcRunEnv) (t : List (OidcStep × Option String))
    (r : ExecResult) : RunResult OidcStep :=
  let t1 := t ++ r.calls.map (fun c => (OidcStep.remote c.1, c.2))
  match r.exited with
  | some _ => ⟨t1, 1⟩
  | none =>
    match env.oidcProviderRun with
    | some e => ⟨t1 ++ [(.oidcProviderRunStep, some e)], 1⟩
    | none => ⟨t1 ++ [(.oidcProviderRunStep, none)], 0⟩

/-- Embedding of `buildOidcConfigInput` followed by strategy dispatch and
execution: parse the secret ARN, check its service and region, derive the
bucket name from the secret resource name, refuse deletion while a
cluster still uses the config, then select and run the strategy. -/

def oidcBuildInput (env : OidcRunEnv) (t : List (OidcStep × Option String))
    (mode region arn : String) : RunResult OidcStep :=
  match env.arnParse arn with
  | .error e =>
    ⟨t ++ [(.parseSecretArn,
        some ("There was a problem parsing secret ARN '" ++ arn ++ "' : " ++ e))], 1⟩
  | .ok parts =>
    let t1 := t ++ [(.parseSecretArn, none)]
    if parts.service ≠ awsSecretsManager then
      ⟨t1 ++ [(.inputServiceCheck,
          some "Supplied secret ARN is not a valid Secrets Manager ARN")], 1⟩
    else
      let t2 := t1 ++ [(.inputServiceCheck, none)]
      if region ≠ parts.region then
        ⟨t2 ++ [(.regionMatchCheck,
            some ("Secret region '" ++ parts.region ++ "' differs from chosen region '" ++
              region ++ "', please run the command supplying region parameter."))], 1⟩
      else
        let t3 := t2 ++ [(.regionMatchCheck, none)]
        match env.getResourceIdFromSecretArn arn with
        | .error e =>
          ⟨t3 ++ [(.getResourceIdStep,
              some ("There was a problem parsing secret ARN '" ++ arn ++ "' : " ++ e))], 1⟩
        | .ok secretResourceName =>
          let t4 := t3 ++ [(.getResourceIdStep, none)]
          let bucketName := bucketNameOf env.redHatHosted secretResourceName
          match env.hasAClusterUsingOidcConfig bucketName with
          | .error e =>
            ⟨t4 ++ [(.clustersUsingCall,
                some ("There was a problem checking if any clusters are using OIDC config '" ++
                  bucketName ++ "' : " ++ e))], 1⟩
          | .ok hasCluster =>
            let t5 := t4 ++ [(.clustersUsingCall, none)]
            if hasCluster then
              ⟨t5 ++ [(.clustersUsingGate,
                  some ("There are clusters using OIDC config '" ++ bucketName ++
                    "', can't delete the configuration"))], 1⟩
            else
              let t6 := t5 ++ [(.clustersUsingGate, none)]
              let input : OidcConfigInput := ⟨arn, bucketName⟩
              match getOidcConfigStrategy env.redHatHosted mode input with
              | .error e => ⟨t6 ++ [(.strategyDispatch, some e)], 1⟩
              | .ok strat =>
                oidcAfterStrategy env (t6 ++ [(.strategyDispatch, none)])
                  (strat.execute env.oidcEnv region)

/-- Delete-oidc-config `run` once mode and region are settled: the secret
ARN comes from the flag or the interactive prompt, with ARN validation
and a Secrets Manager service check on the prompted value (`arn.Parse`'s
error is discarded at this call site, Go's zero value standing in). -/

def oidcAfterMode (env : OidcRunEnv) (t : List (OidcStep × Option String))
    (mode region : String) (effInteractive : Bool) : RunResult OidcStep :=
  let arn0 := env.oidcPrivateKeySecretArnArg
  if arn0 = "" ∨ effInteractive = true then
    match env.promptSecretArn with
    | .error e =>
      ⟨t ++ [(.promptSecretArnStep,
          some ("Expected a valid ARN to the secret containing the private key: " ++ e))], 1⟩
    | .ok arn1 =>
      let t1 := t ++ [(.promptSecretArnStep, none)]
      match env.arnValidator arn1 with
      | some e => ⟨t1 ++ [(.arnValidation, some e)], 1⟩
      | none =>
        let t2 := t1 ++ [(.arnValidation, none)]
        let parts := ((env.arnParse arn1).toOption).getD ⟨"", ""⟩
        if parts.service ≠ secretsManagerService then
          ⟨t2 ++ [(.secretArnServiceCheck,
              some "Supplied secret ARN is not a valid Secrets Manager ARN")], 1⟩
        else
          oidcBuildInput env (t2 ++ [(.secretArnServiceCheck, none)]) mode region arn1
  else oidcBuildInput env t mode region arn0

/-- Delete-oidc-config `run` after the rh-hosted/mode gate: get the
region; interactive mode is enabled when neither interactive nor an
explicit mode flag was given, and then the mode is re-asked. -/

def oidcAfterModeCheck (env : OidcRunEnv) (t : List (OidcStep × Option String))
    (mode : String) : RunResult OidcStep :=
  match env.getRegion with
  | .error e => ⟨t ++ [(.getRegionStep, some ("Error getting region: " ++ e))], 1⟩
  | .ok region =>
    let t1 := t ++ [(.getRegionStep, none)]
    let effInteractive := env.interactiveFlag || !env.modeFlagChanged
    if effInteractive then
      match env.promptMode with
      | .error e =>
        ⟨t1 ++ [(.promptModeStep,
            some ("Expected a valid OIDC provider creation mode: " ++ e))], 1⟩
      | .ok mode1 => oidcAfterMode env (t1 ++ [(.promptModeStep, none)]) mode1 region effInteractive
    else oidcAfterMode env t1 mode region effInteractive

/-- Embedding of the delete-oidc-config command's `run`. -/

def oidcRun (env : OidcRunEnv) : RunResult OidcStep :=
  match env.getMode with
  | .error e => ⟨[(.getModeStep, some e)], 1⟩
  | .ok mode =>
    let t := [((OidcStep.getModeStep : OidcStep), (none : Option String))]
    if env.redHatHosted = true ∧ mode ≠ ModeAuto then
      ⟨t ++ [(.rhHostedModeCheck,
          some "--rh-hosted param is not supported outside --mode auto flow.")], 1⟩
    else oidcAfterModeCheck env (t ++ [(.rhHostedModeCheck, none)]) mode

/-- A concrete environment for exercising the ingress `run`: no
interactive prompts, a valid label match, a ready non-PrivateLink
cluster, and succeeding external calls. -/

def ingressEnvW : IngressEnv :=
  ⟨false, "foo=bar".toList, false, false, "mycluster",
   .ok "foo=bar".toList, .ok false, .ok false, ⟨false, true⟩, none, none⟩

/-- A concrete environment for exercising the delete-oidc-config `run`:
auto mode given explicitly, a Secrets Manager ARN in the right region, no
cluster still using the config, and succeeding external calls. -/

def oidcRunEnvW : OidcRunEnv :=
  ⟨.ok "auto", false, .ok "us-east-1", false, true, .ok "auto",
   "arn:aws:secretsmanager:us-east-1:123456789012:secret:rosa-private-key-mybucket-abc123",
   .ok "arn:aws:secretsmanager:us-east-1:123456789012:secret:rosa-private-key-mybucket-abc123",
   fun _ => none,
   fun _ => .ok ⟨"secretsmanager", "us-east-1"⟩,
   fun _ => .ok "rosa-private-key-mybucket-abc123",
   fun _ => .ok false,
   ⟨none, none, none⟩,
   none⟩

/-- Strategy-execution oracle where the first remote call of the hosted
strategy fails. -/

def oidcEnvFailFirst : OidcEnv := ⟨some "boom", none, none⟩

/-- Strategy-execution oracle where every remote call succeeds. -/

def oidcEnvAllOk : OidcEnv := ⟨none, none, none⟩

/-- A sample `OidcConfigInput`. -/

def oidcCfgW : OidcConfigInput := ⟨"arn:aws:secretsmanager:us-east-1:1:secret:k", "mybucket"⟩

/-! ## Theorems -/

theorem goStrLt_asymm : ∀ a b : List Char, goStrLt a b = true → goStrLt b a = false := by
  intro a
  induction a with
  | nil => intro b h; cases b <;> simp [goStrLt]
  | cons x xs ih =>
    intro b h
    cases b with
    | nil => simp [goStrLt] at h
    | cons y ys =>
      simp only [goStrLt] at h ⊢
      by_cases hxy : x < y
      · simp [hxy, lt_asymm hxy]
      · by_cases hyx : y < x
        · simp [hxy, hyx] at h
        · simp [hxy, hyx] at h ⊢
          exact ih ys h

theorem goStrLt_trans : ∀ a b c : List Char,
    goStrLt a b = true → goStrLt b c = true → goStrLt a c = true := by
  intro a
  induction a with
  | nil =>
    intro b c hab hbc
    cases b with
    | nil => simp [goStrLt] at hab
    | cons y ys =>
      cases c with
      | nil => simp [goStrLt] at hbc
      | cons z zs => simp [goStrLt]
  | cons x xs ih =>
    intro b c hab hbc
    cases b with
    | nil => simp [goStrLt] at hab
    | cons y ys =>
      cases c with
      | nil => simp [goStrLt] at hbc
      | cons z zs =>
        simp only [goStrLt] at hab hbc ⊢
        by_cases hxy : x < y
        · by_cases hyz : y < z
          · simp [lt_trans hxy hyz]
          · by_cases hzy : z < y
            · simp [hyz, hzy] at hbc
            · have hyzeq : y = z := le_antisymm (le_of_not_lt hzy) (le_of_not_lt hyz)
              simp [hyzeq ▸ hxy]
        · by_cases hyx : y < x
          · simp [hxy, hyx] at hab
          · have hxyeq : x = y := le_antisymm (le_of_not_lt hyx) (le_of_not_lt hxy)
            simp only [hxy, hyx, ite_false] at hab
            by_cases hyz : y < z
            · simp [hxyeq ▸ hyz]
            · by_cases hzy : z < y
              · simp [hyz, hzy] at hbc
              · have hyzeq : y = z := le_antisymm (le_of_not_lt hzy) (le_of_not_lt hyz)
                simp only [hyz, hzy, ite_false] at hbc
                subst hxyeq
                subst hyzeq
                simp [hxy, hyx]
                exact ih ys zs hab hbc

theorem goStrLt_connex : ∀ a b : List Char,
    goStrLt a b = false → goStrLt b a = false → a = b := by
  intro a
  induction a with
  | nil =>
    intro b h _
    cases b with
    | nil => rfl
    | cons y ys => simp [goStrLt] at h
  | cons x xs ih =>
    intro b hab hba
    cases b with
    | nil => simp [goStrLt] at hba
    | cons y ys =>
      simp only [goStrLt] at hab hba
      by_cases hxy : x < y
      · simp [hxy] at hab
      · by_cases hyx : y < x
        · simp [hyx] at hba
        · have heq : x = y := le_antisymm (le_of_not_lt hyx) (le_of_not_lt hxy)
          simp [hxy, hyx] at hab hba
          rw [heq, ih ys hab hba]

theorem randomLabelLoop_length : ∀ (n v : Nat) (acc : List Nat),
    (randomLabelLoop n v acc).length = n + acc.length := by
  intro n
  induction n with
  | zero => intro v acc; simp [randomLabelLoop]
  | succ m ih =>
    intro v acc
    by_cases h : m % 2 = 0 <;> simp [randomLabelLoop, h, ih] <;> omega

theorem randomLabelLoop_bytes : ∀ (n v : Nat) (acc : List Nat),
    (∀ j x, acc.get? j = some x → labelByteOk (n + j) x) →
    ∀ j x, (randomLabelLoop n v acc).get? j = some x → labelByteOk j x := by
  intro n
  induction n with
  | zero =>
    intro v acc hacc j x hj
    simpa using hacc j x (by simpa [randomLabelLoop] using hj)
  | succ m ih =>
    intro v acc hacc j x hj
    by_cases hm : m % 2 = 0
    · refine ih (v / letterCount) _ ?_ j x (by simpa [randomLabelLoop, hm] using hj)
      intro j x hx
      match j, hx with
      | 0, hx =>
        simp only [List.get?_eq_getElem?, List.getElem?_cons_zero, Option.some.injEq] at hx
        subst hx
        have hlt : v % letterCount < letterCount := Nat.mod_lt _ (by simp [letterCount, zCode, aCode])
        simp only [labelByteOk, Nat.add_zero, hm, if_pos]
        constructor
        · omega
        · simp only [letterCount, zCode, aCode] at hlt ⊢; omega
      | j + 1, hx =>
        simp only [List.get?_eq_getElem?, List.getElem?_cons_succ] at hx
        have hres := hacc j x (by simpa using hx)
        have harr : m + (j + 1) = m + 1 + j := by omega
        rw [harr]
        exact hres
    · refine ih (v / digitCount) _ ?_ j x (by simpa [randomLabelLoop, hm] using hj)
      intro j x hx
      match j, hx with
      | 0, hx =>
        simp only [List.get?_eq_getElem?, List.getElem?_cons_zero, Option.some.injEq] at hx
        subst hx
        have hlt : v % digitCount < digitCount := Nat.mod_lt _ (by simp [digitCount, nineCode, zeroCode])
        simp only [labelByteOk, Nat.add_zero, hm, if_neg]
        constructor
        · omega
        · simp only [digitCount, nineCode, zeroCode] at hlt ⊢; omega
      | j + 1, hx =>
        simp only [List.get?_eq_getElem?, List.getElem?_cons_succ] at hx
        have hres := hacc j x (by simpa using hx)
        have harr : m + (j + 1) = m + 1 + j := by omega
        rw [harr]
        exact hres

theorem stringEqOfToList {a b : String} (h : a.toList = b.toList) : a = b := by
  cases a with
  | mk da =>
    cases b with
    | mk db =>
      simp only [String.toList] at h
      simp [h]

theorem rankedLe_total : ∀ a b : String, rankedLe a b ∨ rankedLe b a := by
  intro a b
  rcases Nat.lt_trichotomy a.length b.length with h | h | h
  · exact Or.inr (Or.inl h)
  · cases hlt : goStrLt a.toList b.toList with
    | false => exact Or.inl (Or.inr ⟨h, hlt⟩)
    | true => exact Or.inr (Or.inr ⟨h.symm, goStrLt_asymm _ _ hlt⟩)
  · exact Or.inl (Or.inl h)

theorem goStrLt_not_of_not_not {a b c : List Char}
    (hab : goStrLt a b = false) (hbc : goStrLt b c = false) : goStrLt a c = false := by
  cases hac : goStrLt a c with
  | false => rfl
  | true =>
    exfalso
    cases hcb : goStrLt c b with
    | false =>
      have hbceq := goStrLt_connex b c hbc hcb
      subst hbceq
      simp [hab] at hac
    | true =>
      have htr := goStrLt_trans a c b hac hcb
      simp [hab] at htr

theorem rankedLe_trans : ∀ a b c : String, rankedLe a b → rankedLe b c → rankedLe a c := by
  intro a b c h1 h2
  rcases h1 with h1 | ⟨h1e, h1x⟩
  · rcases h2 with h2 | ⟨h2e, _⟩
    · exact Or.inl (lt_trans h2 h1)
    · exact Or.inl (h2e ▸ h1)
  · rcases h2 with h2 | ⟨h2e, h2x⟩
    · exact Or.inl (h1e ▸ h2)
    · exact Or.inr ⟨h1e.trans h2e, goStrLt_not_of_not_not h1x h2x⟩

theorem rankedLe_antisymm : ∀ a b : String, rankedLe a b → rankedLe b a → a = b := by
  intro a b h1 h2
  rcases h1 with h1 | ⟨h1e, h1x⟩
  · rcases h2 with h2 | ⟨h2e, _⟩
    · omega
    · omega
  · rcases h2 with h2 | ⟨h2e, h2x⟩
    · omega
    · exact stringEqOfToList (goStrLt_connex _ _ h1x h2x)

theorem rankMapStringInt_perm (values : List (String × Int)) :
    (RankMapStringInt values).Perm (values.map Prod.fst) := by
  unfold RankMapStringInt
  exact (List.perm_insertionSort _ _).trans ((List.perm_insertionSort _ _).map _)

theorem rankMapStringInt_sorted (values : List (String × Int)) :
    List.Sorted rankedLe (RankMapStringInt values) := by
  haveI : IsTotal String rankedLe := ⟨rankedLe_total⟩
  haveI : IsTrans String rankedLe := ⟨rankedLe_trans⟩
  unfold RankMapStringInt
  exact List.sorted_insertionSort _ _

theorem rankMapStringInt_keys_perm_eq (values values' : List (String × Int))
    (h : (values'.map Prod.fst).Perm (values.map Prod.fst)) :
    RankMapStringInt values' = RankMapStringInt values := by
  haveI : IsAntisymm String rankedLe := ⟨rankedLe_antisymm⟩
  refine List.eq_of_perm_of_sorted ?_ (rankMapStringInt_sorted values') (rankMapStringInt_sorted values)
  exact (rankMapStringInt_perm values').trans (h.trans (rankMapStringInt_perm values).symm)

theorem goSplit_ne_nil (sep : Char) : ∀ s : List Char, goSplit sep s ≠ [] := by
  intro s
  induction s with
  | nil => simp [goSplit]
  | cons c rest ih =>
    simp only [goSplit]
    by_cases h : c = sep
    · simp [h]
    · simp only [h, if_false, ite_false]
      cases hr : goSplit sep rest with
      | nil => exact absurd hr ih
      | cons t ts => simp

theorem goSplit_head (sep : Char) : ∀ s : List Char,
    (goSplit sep s).getD 0 [] = s.takeWhile (fun c => c ≠ sep) := by
  intro s
  induction s with
  | nil => simp [goSplit]
  | cons c rest ih =>
    simp only [goSplit]
    by_cases h : c = sep
    · simp [h]
    · simp only [h, ite_false]
      cases hr : goSplit sep rest with
      | nil => exact absurd hr (goSplit_ne_nil sep rest)
      | cons t ts =>
        rw [hr] at ih
        simp only [List.getD, List.get?_eq_getElem?, List.getElem?_cons_zero,
          Option.getD_some] at ih ⊢
        rw [List.takeWhile_cons, if_pos (by simpa using h), ih]

theorem goSplit_second (sep : Char) : ∀ s : List Char,
    goContainsChar sep s = true →
    (goSplit sep s).getD 1 [] =
      ((s.dropWhile (fun c => c ≠ sep)).drop 1).takeWhile (fun c => c ≠ sep) := by
  intro s
  induction s with
  | nil => intro h; simp [goContainsChar] at h
  | cons c rest ih =>
    intro h
    simp only [goSplit]
    by_cases hc : c = sep
    · subst hc
      simp only [if_pos rfl]
      have hdrop : (c :: rest).dropWhile (fun x => x ≠ c) = c :: rest := by
        simp [List.dropWhile_cons]
      rw [hdrop]
      simp only [List.drop_succ_cons, List.drop_zero]
      have := goSplit_head c rest
      simpa [List.getD] using this
    · have hmem : sep ∈ rest := by
        simpa [goContainsChar, hc] using h
      have hrest : goContainsChar sep rest = true := by
        simpa [goContainsChar] using hmem
      simp only [hc, ite_false]
      cases hr : goSplit sep rest with
      | nil => exact absurd hr (goSplit_ne_nil sep rest)
      | cons t ts =>
        have := ih hrest
        rw [hr] at this
        simp only [List.getD] at this ⊢
        simpa [List.dropWhile_cons, hc] using this

theorem routeSelectorLoop_isOk_iff : ∀ (items : List (List Char)) (acc : List (List Char × List Char)),
    (routeSelectorLoop items acc).isOk = false ↔
      ∃ item ∈ items, goContainsChar '=' item = false := by
  intro items
  induction items with
  | nil => intro acc; simp [routeSelectorLoop, Except.isOk, Except.toBool]
  | cons item rest ih =>
    intro acc
    by_cases h : goContainsChar '=' item
    · simp only [routeSelectorLoop, h, if_pos]
      rw [ih]
      constructor
      · rintro ⟨i, hi, hni⟩
        exact ⟨i, List.mem_cons_of_mem _ hi, hni⟩
      · rintro ⟨i, hi, hni⟩
        rcases List.mem_cons.mp hi with rfl | hi
        · rw [h] at hni; cases hni
        · exact ⟨i, hi, hni⟩
    · simp only [routeSelectorLoop, h, if_neg, ite_false]
      simp only [Except.isOk, Except.toBool, Bool.false_eq_true]
      constructor
      · intro _
        exact ⟨item, List.mem_cons_self _ _, by simpa using h⟩
      · intro _
        rfl

theorem routeSelectorLoop_ok : ∀ (items : List (List Char)) (acc : List (List Char × List Char)),
    (∀ item ∈ items, goContainsChar '=' item = true) →
    routeSelectorLoop items acc =
      .ok (items.foldl (fun m item => mapAssign m (specKeyOf item) (specValueOf item)) acc) := by
  intro items
  induction items with
  | nil => intro acc _; simp [routeSelectorLoop]
  | cons item rest ih =>
    intro acc hall
    have hitem : goContainsChar '=' item = true := hall item (List.mem_cons_self _ _)
    simp only [routeSelectorLoop, hitem, if_pos, List.foldl_cons]
    rw [goSplit_head, goSplit_second _ _ hitem]
    exact ih _ (fun i hi => hall i (List.mem_cons_of_mem _ hi))

theorem traceAllOk_nil {σ : Type} : TraceAllOk ([] : List (σ × Option String)) := by
  intro e he
  cases he

theorem traceAllOk_append {σ : Type} {t : List (σ × Option String)} (s : σ)
    (h : TraceAllOk t) : TraceAllOk (t ++ [(s, none)]) := by
  intro e he
  rcases List.mem_append.mp he with he | he
  · exact h e he
  · rcases List.mem_singleton.mp he with rfl
    rfl

theorem goodRun_fail {σ : Type} {t : List (σ × Option String)} (s : σ) (msg : String)
    (h : TraceAllOk t) : GoodRun ⟨t ++ [(s, some msg)], 1⟩ := by
  refine ⟨Or.inr rfl, ?_, ?_⟩
  · constructor
    · intro _
      exact ⟨(s, some msg), List.mem_append_right _ (List.mem_singleton_self _), rfl⟩
    · intro _
      rfl
  · intro e he
    rw [List.dropLast_concat] at he
    exact h e he

theorem goodRun_done {σ : Type} {t : List (σ × Option String)}
    (h : TraceAllOk t) : GoodRun ⟨t, 0⟩ := by
  refine ⟨Or.inl rfl, ?_, ?_⟩
  · constructor
    · intro h0
      cases h0
    · rintro ⟨e, he, hsome⟩
      rw [h e he] at hsome
      cases hsome
  · intro e he
    exact h e (List.dropLast_sublist t |>.subset he)

theorem ingressAfterNlb_good (env : IngressEnv) (t : List (IngressStep × Option String))
    (h : TraceAllOk t) : GoodRun (ingressAfterNlb env t) := by
  unfold ingressAfterNlb
  cases env.buildIngress with
  | some e => exact goodRun_fail _ _ h
  | none =>
    cases env.createIngress with
    | some e => exact goodRun_fail _ _ (traceAllOk_append _ h)
    | none => exact goodRun_done (traceAllOk_append _ (traceAllOk_append _ h))

theorem ingressAfterPrivate_good (env : IngressEnv) (t : List (IngressStep × Option String))
    (h : TraceAllOk t) : GoodRun (ingressAfterPrivate env t) := by
  unfold ingressAfterPrivate
  by_cases hi : env.interactiveEnabled
  · simp only [hi, if_pos]
    cases env.promptNlb with
    | error e => exact goodRun_fail _ _ h
    | ok _ => exact ingressAfterNlb_good env _ (traceAllOk_append _ h)
  · simp only [hi, ite_false]
    exact ingressAfterNlb_good env t h

theorem ingressAfterReady_good (env : IngressEnv) (t : List (IngressStep × Option String))
    (h : TraceAllOk t) : GoodRun (ingressAfterReady env t) := by
  unfold ingressAfterReady
  by_cases hi : env.interactiveEnabled
  · simp only [hi, if_pos]
    cases env.promptPrivate with
    | error e => exact goodRun_fail _ _ h
    | ok _ => exact ingressAfterPrivate_good env _ (traceAllOk_append _ h)
  · simp only [hi, ite_false]
    exact ingressAfterPrivate_good env t h

theorem ingressAfterSelector_good (env : IngressEnv) (t : List (IngressStep × Option String))
    (h : TraceAllOk t) : GoodRun (ingressAfterSelector env t) := by
  unfold ingressAfterSelector
  by_cases hp : env.cluster.privateLink
  · simp only [hp, if_pos]
    exact goodRun_fail _ _ h
  · simp only [hp, ite_false]
    by_cases hr : env.cluster.stateReady
    · simp only [hr, Bool.not_true, Bool.false_eq_true, ite_false]
      exact ingressAfterReady_good env _ (traceAllOk_append _ (traceAllOk_append _ h))
    · simp only [hr, Bool.not_false, if_pos]
      exact goodRun_fail _ _ (traceAllOk_append _ h)

theorem ingressAfterLabel_good (env : IngressEnv) (t : List (IngressStep × Option String))
    (labelMatch : List Char) (h : TraceAllOk t) :
    GoodRun (ingressAfterLabel env t labelMatch) := by
  unfold ingressAfterLabel
  cases getRouteSelector labelMatch with
  | error e => exact goodRun_fail _ _ h
  | ok _ => exact ingressAfterSelector_good env _ (traceAllOk_append _ h)

theorem ingressRun_good (env : IngressEnv) : GoodRun (ingressRun env) := by
  unfold ingressRun
  by_cases hi : env.interactiveEnabled
  · simp only [hi, if_pos]
    cases env.promptLabel with
    | error e =>
      have := goodRun_fail (t := ([] : List (IngressStep × Option String)))
        IngressStep.promptLabelMatch
        ("Expected a valid comma-separated list of attributes: " ++ e) traceAllOk_nil
      simpa using this
    | ok lm =>
      have : TraceAllOk [((IngressStep.promptLabelMatch : IngressStep), (none : Option String))] := by
        have := traceAllOk_append (t := ([] : List (IngressStep × Option String)))
          IngressStep.promptLabelMatch traceAllOk_nil
        simpa using this
      exact ingressAfterLabel_good env _ lm this
  · simp only [hi, ite_false]
    exact ingressAfterLabel_good env [] env.labelMatchArg traceAllOk_nil

theorem strategyExec_props (s : DeleteOidcConfigStrategy) (env : OidcEnv) (region : String) :
    (∀ e ∈ (s.execute env region).calls.dropLast, e.2 = none) ∧
    ((s.execute env region).exited = none → ∀ e ∈ (s.execute env region).calls, e.2 = none) ∧
    ((s.execute env region).exited.isSome = true →
      ∃ e ∈ (s.execute env region).calls, e.2.isSome = true) ∧
    ((s.execute env region).exited = none ∨ (s.execute env region).exited = some 1) := by
  cases s with
  | redHatHostedAuto cfg =>
    simp only [DeleteOidcConfigStrategy.execute, executeRedHatHostedAuto]
    cases h1 : env.deleteRedHatHostedOidcConfig with
    | some e =>
      refine ⟨?_, ?_, ?_, ?_⟩ <;> simp
    | none =>
      cases h2 : env.deleteSecretInSecretsManager with
      | some e => refine ⟨?_, ?_, ?_, ?_⟩ <;> simp
      | none => refine ⟨?_, ?_, ?_, ?_⟩ <;> simp
  | auto cfg =>
    simp only [DeleteOidcConfigStrategy.execute, executeAuto]
    cases h1 : env.deleteSecretInSecretsManager with
    | some e =>
      refine ⟨?_, ?_, ?_, ?_⟩ <;> simp
    | none =>
      cases h2 : env.deleteS3Bucket with
      | some e => refine ⟨?_, ?_, ?_, ?_⟩ <;> simp
      | none => refine ⟨?_, ?_, ?_, ?_⟩ <;> simp
  | manual cfg =>
    simp only [DeleteOidcConfigStrategy.execute, executeManual]
    refine ⟨?_, ?_, ?_, ?_⟩ <;> simp

theorem oidcAfterStrategy_good (env : OidcRunEnv) (t : List (OidcStep × Option String))
    (r : ExecResult) (h : TraceAllOk t)
    (hr1 : ∀ e ∈ r.calls.dropLast, e.2 = none)
    (hr2 : r.exited = none → ∀ e ∈ r.calls, e.2 = none)
    (hr3 : r.exited.isSome = true → ∃ e ∈ r.calls, e.2.isSome = true)
    (_hr4 : r.exited = none ∨ r.exited = some 1) :
    GoodRun (oidcAfterStrategy env t r) := by
  unfold oidcAfterStrategy
  cases hex : r.exited with
  | some n =>
    rcases hr3 (by simp [hex]) with ⟨e, he, hsome⟩
    have hne : r.calls ≠ [] := by
      intro hnil
      rw [hnil] at he
      cases he
    have hmapne : r.calls.map (fun c => ((OidcStep.remote c.1 : OidcStep), c.2)) ≠ [] := by
      simpa using hne
    refine ⟨Or.inr rfl, ?_, ?_⟩
    · constructor
      · intro _
        exact ⟨(OidcStep.remote e.1, e.2),
          List.mem_append_right _ (List.mem_map_of_mem _ he), hsome⟩
      · intro _
        rfl
    · intro x hx
      rw [List.dropLast_append_of_ne_nil _ hmapne] at hx
      rcases List.mem_append.mp hx with hx | hx
      · exact h x hx
      · rw [← List.map_dropLast] at hx
        rcases List.mem_map.mp hx with ⟨c, hc, rfl⟩
        exact hr1 c hc
  | none =>
    have hall : TraceAllOk (t ++ r.calls.map (fun c => ((OidcStep.remote c.1 : OidcStep), c.2))) := by
      intro x hx
      rcases List.mem_append.mp hx with hx | hx
      · exact h x hx
      · rcases List.mem_map.mp hx with ⟨c, hc, rfl⟩
        exact hr2 hex c hc
    cases env.oidcProviderRun with
    | some e => exact goodRun_fail _ _ hall
    | none => exact goodRun_done (traceAllOk_append _ hall)

theorem oidcBuildInput_good (env : OidcRunEnv) (t : List (OidcStep × Option String))
    (mode region arn : String) (h : TraceAllOk t) :
    GoodRun (oidcBuildInput env t mode region arn) := by
  unfold oidcBuildInput
  cases env.arnParse arn with
  | error e => exact goodRun_fail _ _ h
  | ok parts =>
    dsimp only
    by_cases hs : parts.service ≠ awsSecretsManager
    · rw [if_pos hs]
      exact goodRun_fail _ _ (traceAllOk_append _ h)
    · rw [if_neg hs]
      by_cases hrg : region ≠ parts.region
      · rw [if_pos hrg]
        exact goodRun_fail _ _ (traceAllOk_append _ (traceAllOk_append _ h))
      · rw [if_neg hrg]
        cases env.getResourceIdFromSecretArn arn with
        | error e =>
          exact goodRun_fail _ _ (traceAllOk_append _ (traceAllOk_append _ (traceAllOk_append _ h)))
        | ok secretResourceName =>
          dsimp only
          cases env.hasAClusterUsingOidcConfig (bucketNameOf env.redHatHosted secretResourceName) with
          | error e =>
            exact goodRun_fail _ _
              (traceAllOk_append _ (traceAllOk_append _ (traceAllOk_append _ (traceAllOk_append _ h))))
          | ok hasCluster =>
            dsimp only
            cases hasCluster with
            | true =>
              rw [if_pos rfl]
              exact goodRun_fail _ _
                (traceAllOk_append _ (traceAllOk_append _ (traceAllOk_append _
                  (traceAllOk_append _ (traceAllOk_append _ h)))))
            | false =>
              rw [if_neg (by simp)]
              cases getOidcConfigStrategy env.redHatHosted mode
                  ⟨arn, bucketNameOf env.redHatHosted secretResourceName⟩ with
              | error e =>
                exact goodRun_fail _ _
                  (traceAllOk_append _ (traceAllOk_append _ (traceAllOk_append _
                    (traceAllOk_append _ (traceAllOk_append _ (traceAllOk_append _ h))))))
              | ok strat =>
                have hp := strategyExec_props strat env.oidcEnv region
                exact oidcAfterStrategy_good env _ _
                  (traceAllOk_append _ (traceAllOk_append _ (traceAllOk_append _
                    (traceAllOk_append _ (traceAllOk_append _ (traceAllOk_append _
                      (traceAllOk_append _ h)))))))
                  hp.1 hp.2.1 hp.2.2.1 hp.2.2.2

theorem oidcAfterMode_good (env : OidcRunEnv) (t : List (OidcStep × Option String))
    (mode region : String) (effInteractive : Bool) (h : TraceAllOk t) :
    GoodRun (oidcAfterMode env t mode region effInteractive) := by
  unfold oidcAfterMode
  dsimp only
  by_cases hcond : env.oidcPrivateKeySecretArnArg = "" ∨ effInteractive = true
  · rw [if_pos hcond]
    cases env.promptSecretArn with
    | error e => exact goodRun_fail _ _ h
    | ok arn1 =>
      dsimp only
      cases env.arnValidator arn1 with
      | some e => exact goodRun_fail _ _ (traceAllOk_append _ h)
      | none =>
        dsimp only
        by_cases hsvc : (((env.arnParse arn1).toOption).getD ⟨"", ""⟩).service ≠ secretsManagerService
        · rw [if_pos hsvc]
          exact goodRun_fail _ _ (traceAllOk_append _ (traceAllOk_append _ h))
        · rw [if_neg hsvc]
          exact oidcBuildInput_good env _ mode region arn1
            (traceAllOk_append _ (traceAllOk_append _ (traceAllOk_append _ h)))
  · rw [if_neg hcond]
    exact oidcBuildInput_good env t mode region env.oidcPrivateKeySecretArnArg h

theorem oidcAfterModeCheck_good (env : OidcRunEnv) (t : List (OidcStep × Option String))
    (mode : String) (h : TraceAllOk t) :
    GoodRun (oidcAfterModeCheck env t mode) := by
  unfold oidcAfterModeCheck
  cases env.getRegion with
  | error e => exact goodRun_fail _ _ h
  | ok region =>
    dsimp only
    by_cases hi : (env.interactiveFlag || !env.modeFlagChanged) = true
    · rw [if_pos hi]
      cases env.promptMode with
      | error e => exact goodRun_fail _ _ (traceAllOk_append _ h)
      | ok mode1 =>
        exact oidcAfterMode_good env _ mode1 region _ (traceAllOk_append _ (traceAllOk_append _ h))
    · rw [if_neg hi]
      exact oidcAfterMode_good env _ mode region _ (traceAllOk_append _ h)

theorem oidcRun_good (env : OidcRunEnv) : GoodRun (oidcRun env) := by
  unfold oidcRun
  cases env.getMode with
  | error e =>
    have := goodRun_fail (t := ([] : List (OidcStep × Option String))) OidcStep.getModeStep e traceAllOk_nil
    simpa using this
  | ok mode =>
    have h0 : TraceAllOk [((OidcStep.getModeStep : OidcStep), (none : Option String))] := by
      have := traceAllOk_append (t := ([] : List (OidcStep × Option String)))
        OidcStep.getModeStep traceAllOk_nil
      simpa using this
    dsimp only
    by_cases hrh : env.redHatHosted = true ∧ mode ≠ ModeAuto
    · rw [if_pos hrh]
      exact goodRun_fail _ _ h0
    · rw [if_neg hrh]
      exact oidcAfterModeCheck_good env _ mode (traceAllOk_append _ h0)

/-- Claim C1: for every mode string and ownership-flag value,
`getOidcConfigStrategy` selects exactly one of three execution
strategies — the Red Hat hosted strategy whenever the rh-hosted flag is
set regardless of mode; otherwise the automatic strategy for mode
`auto`, the manual strategy for mode `manual`, and for any other mode no
strategy and an error naming the allowed modes. -/
theorem claim_c1 (mode : String) (redHatHosted : Bool) (input : OidcConfigInput) :
    (redHatHosted = true →
      getOidcConfigStrategy redHatHosted mode input = .ok (.redHatHostedAuto input)) ∧
    (redHatHosted = false → mode = ModeAuto →
      getOidcConfigStrategy redHatHosted mode input = .ok (.auto input)) ∧
    (redHatHosted = false → mode = ModeManual →
      getOidcConfigStrategy redHatHosted mode input = .ok (.manual input)) ∧
    (redHatHosted = false → mode ∉ Modes →
      getOidcConfigStrategy redHatHosted mode input = .error invalidModeMessage) ∧
    invalidModeMessage = "Invalid mode. Allowed values are [" ++ ModeAuto ++ " " ++ ModeManual ++ "]" := by
  refine ⟨?_, ?_, ?_, ?_, rfl⟩
  · intro h
    subst h
    simp [getOidcConfigStrategy]
  · intro h hm
    subst h
    subst hm
    simp [getOidcConfigStrategy]
  · intro h hm
    subst h
    subst hm
    unfold getOidcConfigStrategy
    rw [if_neg (by simp), if_neg (by decide), if_pos rfl]
  · intro h hm
    subst h
    have h1 : mode ≠ ModeAuto := by
      intro e
      exact hm (by rw [e]; simp [Modes])
    have h2 : mode ≠ ModeManual := by
      intro e
      exact hm (by rw [e]; simp [Modes])
    unfold getOidcConfigStrategy
    rw [if_neg (by simp), if_neg h1, if_neg h2]

theorem claim_c1_witness :
    getOidcConfigStrategy true "weird" oidcCfgW = .ok (.redHatHostedAuto oidcCfgW) ∧
    getOidcConfigStrategy false "auto" oidcCfgW = .ok (.auto oidcCfgW) ∧
    getOidcConfigStrategy false "manual" oidcCfgW = .ok (.manual oidcCfgW) ∧
    getOidcConfigStrategy false "hosted" oidcCfgW = .error invalidModeMessage :=
  ⟨(claim_c1 "weird" true oidcCfgW).1 rfl,
   (claim_c1 "auto" false oidcCfgW).2.1 rfl rfl,
   (claim_c1 "manual" false oidcCfgW).2.2.1 rfl rfl,
   (claim_c1 "hosted" false oidcCfgW).2.2.2.1 rfl (by decide)⟩

/-- Claim C2: each auto delete-OIDC-config strategy performs its remote
calls in a fixed order of at most two calls (hosted: delete the
control-plane OIDC configuration, then the private-key secret;
automatic: delete the private-key secret, then the S3 bucket); on the
first failing call it records the reported error and exits immediately,
making no further calls, no retries, and no rollback; when nothing fails
both calls are made and the strategy returns. -/
theorem claim_c2 (env : OidcEnv) (cfg : OidcConfigInput) (region : String) :
    (∀ e, env.deleteRedHatHostedOidcConfig = some e →
      (DeleteOidcConfigStrategy.redHatHostedAuto cfg).execute env region =
        ⟨[(.ocmDeleteRedHatHostedOidcConfig, some e)], [], some 1⟩) ∧
    (∀ e, env.deleteRedHatHostedOidcConfig = none →
      env.deleteSecretInSecretsManager = some e →
      (DeleteOidcConfigStrategy.redHatHostedAuto cfg).execute env region =
        ⟨[(.ocmDeleteRedHatHostedOidcConfig, none),
          (.awsDeleteSecretInSecretsManager cfg.privateKeySecretArn, some e)], [], some 1⟩) ∧
    (env.deleteRedHatHostedOidcConfig = none → env.deleteSecretInSecretsManager = none →
      (DeleteOidcConfigStrategy.redHatHostedAuto cfg).execute env region =
        ⟨[(.ocmDeleteRedHatHostedOidcConfig, none),
          (.awsDeleteSecretInSecretsManager cfg.privateKeySecretArn, none)], [], none⟩) ∧
    (∀ e, env.deleteSecretInSecretsManager = some e →
      (DeleteOidcConfigStrategy.auto cfg).execute env region =
        ⟨[(.awsDeleteSecretInSecretsManager cfg.privateKeySecretArn, some e)], [], some 1⟩) ∧
    (∀ e, env.deleteSecretInSecretsManager = none → env.deleteS3Bucket = some e →
      (DeleteOidcConfigStrategy.auto cfg).execute env region =
        ⟨[(.awsDeleteSecretInSecretsManager cfg.privateKeySecretArn, none),
          (.awsDeleteS3Bucket cfg.bucketName, some e)], [], some 1⟩) ∧
    (env.deleteSecretInSecretsManager = none → env.deleteS3Bucket = none →
      (DeleteOidcConfigStrategy.auto cfg).execute env region =
        ⟨[(.awsDeleteSecretInSecretsManager cfg.privateKeySecretArn, none),
          (.awsDeleteS3Bucket cfg.bucketName, none)], [], none⟩) := by
  refine ⟨?_, ?_, ?_, ?_, ?_, ?_⟩
  · intro e h1
    simp [DeleteOidcConfigStrategy.execute, executeRedHatHostedAuto, h1]
  · intro e h1 h2
    simp [DeleteOidcConfigStrategy.execute, executeRedHatHostedAuto, h1, h2]
  · intro h1 h2
    simp [DeleteOidcConfigStrategy.execute, executeRedHatHostedAuto, h1, h2]
  · intro e h1
    simp [DeleteOidcConfigStrategy.execute, executeAuto, h1]
  · intro e h1 h2
    simp [DeleteOidcConfigStrategy.execute, executeAuto, h1, h2]
  · intro h1 h2
    simp [DeleteOidcConfigStrategy.execute, executeAuto, h1, h2]

theorem claim_c2_witness :
    (DeleteOidcConfigStrategy.redHatHostedAuto oidcCfgW).execute oidcEnvFailFirst "us-east-1" =
      ⟨[(.ocmDeleteRedHatHostedOidcConfig, some "boom")], [], some 1⟩ ∧
    (DeleteOidcConfigStrategy.auto oidcCfgW).execute oidcEnvAllOk "us-east-1" =
      ⟨[(.awsDeleteSecretInSecretsManager oidcCfgW.privateKeySecretArn, none),
        (.awsDeleteS3Bucket oidcCfgW.bucketName, none)], [], none⟩ :=
  ⟨(claim_c2 oidcEnvFailFirst oidcCfgW "us-east-1").1 "boom" rfl,
   (claim_c2 oidcEnvAllOk oidcCfgW "us-east-1").2.2.2.2.2 rfl rfl⟩

/-- Claim C4: for every instance type, list of security group IDs and tag
map, building the node pool produced by `createAwsNodePoolBuilder`
succeeds and the result's instance type, additional security group IDs
and tags equal the given arguments; an empty tag map yields a node pool
with zero tags. -/
theorem claim_c4 (instanceType : String) (securityGroupIds : List String)
    (awsTags : List (String × String)) :
    (createAwsNodePoolBuilder instanceType securityGroupIds awsTags).build =
      .ok ⟨instanceType, securityGroupIds, awsTags⟩ ∧
    (createAwsNodePoolBuilder instanceType securityGroupIds []).build =
      .ok ⟨instanceType, securityGroupIds, []⟩ :=
  ⟨rfl, rfl⟩

/-- Claim C5: in manual mode the delete-OIDC-config strategy makes no
remote API calls; it prints exactly three equivalent shell commands, in
this order: delete the private-key secret in Secrets Manager (with the
region parameter), recursively remove the contents of the S3 bucket,
then remove the S3 bucket itself. -/
theorem claim_c5 (env : OidcEnv) (cfg : OidcConfigInput) (region : String) :
    (DeleteOidcConfigStrategy.manual cfg).execute env region =
      ⟨[],
       ["aws secretsmanager delete-secret --secret-id " ++ cfg.privateKeySecretArn ++
          " --region " ++ region,
        "aws s3 rm s3://" ++ cfg.bucketName ++ " --recursive",
        "aws s3 rb s3://" ++ cfg.bucketName],
       none⟩ := by
  show executeManual region cfg = _
  unfold executeManual
  refine congrArg (fun l => ExecResult.mk [] l none) ?_
  refine congrArg₂ (fun (a : String) (l : List String) => a :: l) ?_ ?_
  · apply String.ext
    simp [AwsCommandBuilder.build, newSecretsManagerCommandBuilder,
      AwsCommandBuilder.setCommand, AwsCommandBuilder.addParam, DeleteSecret, SecretID,
      Region, String.data_append]
  refine congrArg₂ (fun (a : String) (l : List String) => a :: l) ?_ ?_
  · apply String.ext
    simp [AwsCommandBuilder.build, newS3CommandBuilder, AwsCommandBuilder.setCommand,
      AwsCommandBuilder.addValueNoParam, AwsCommandBuilder.addParamNoValue, Remove,
      Recursive, String.data_append]
  refine congrArg (fun (a : String) => [a]) ?_
  apply String.ext
  simp [AwsCommandBuilder.build, newS3CommandBuilder, AwsCommandBuilder.setCommand,
    AwsCommandBuilder.addValueNoParam, RemoveBucket, String.data_append]

/-- Claim C6: `IsURL` and `IsCIDR` reject every value that is not a
string, except that `IsURL` accepts nil; `IsURL` also accepts the empty
string and otherwise defers exactly to the request-URI parser, while
`IsCIDR` has no empty-string exemption and defers every string to the
CIDR parser. -/
theorem claim_c6 (parseRequestURI parseCIDR : String → Option String) (v : GoValue)
    (s : String) :
    IsURL parseRequestURI .goNil = none ∧
    IsURL parseRequestURI (.goString "") = none ∧
    (s ≠ "" → IsURL parseRequestURI (.goString s) = parseRequestURI s) ∧
    ((∀ t, v ≠ .goString t) → v ≠ .goNil → (IsURL parseRequestURI v).isSome = true) ∧
    IsCIDR parseCIDR (.goString s) = parseCIDR s ∧
    ((∀ t, v ≠ .goString t) → (IsCIDR parseCIDR v).isSome = true) := by
  refine ⟨rfl, rfl, ?_, ?_, rfl, ?_⟩
  · intro hs
    simp [IsURL, hs]
  · intro hstr hnil
    cases v with
    | goNil => exact absurd rfl hnil
    | goString t => exact absurd rfl (hstr t)
    | goBool b => simp [IsURL]
    | goInt n => simp [IsURL]
  · intro hstr
    cases v with
    | goNil => simp [IsCIDR]
    | goString t => exact absurd rfl (hstr t)
    | goBool b => simp [IsCIDR]
    | goInt n => simp [IsCIDR]

theorem claim_c6_witness :
    ("http://example.com" : String) ≠ "" ∧
    IsURL (fun _ => none) (.goString "http://example.com") = none ∧
    (IsURL (fun _ => none) (.goBool true)).isSome = true ∧
    (IsCIDR (fun _ => some "bad CIDR") (.goString "")).isSome = true :=
  ⟨by decide,
   (claim_c6 (fun _ => none) (fun _ => some "bad CIDR") (.goBool true)
      "http://example.com").2.2.1 (by decide),
   (claim_c6 (fun _ => none) (fun _ => some "bad CIDR") (.goBool true)
      "http://example.com").2.2.2.1 (fun t h => GoValue.noConfusion h)
      (fun h => GoValue.noConfusion h),
   by
     have h := (claim_c6 (fun _ => none) (fun _ => some "bad CIDR") (.goBool true) "").2.2.2.2.1
     rw [h]
     rfl⟩

/-- Claim C3: whenever any validation step or remote call in a command
reports an error, the process prints the error and exits immediately
with code 1, never continuing past the failed step; a run with no
reported error exits with code 0.  Stated for the two embedded commands
(create ingress and delete oidc-config) via `GoodRun`: the exit code is
0 or 1, it is 1 exactly when some attempted step reported an error, and
a reported error can only sit at the end of the trace. -/
theorem claim_c3 (envI : IngressEnv) (envO : OidcRunEnv) :
    GoodRun (ingressRun envI) ∧ GoodRun (oidcRun envO) :=
  ⟨ingressRun_good envI, oidcRun_good envO⟩

theorem claim_c3_witness :
    (ingressRun ingressEnvW).exit = 0 ∧ (oidcRun oidcRunEnvW).exit = 0 ∧
    GoodRun (ingressRun ingressEnvW) ∧ GoodRun (oidcRun oidcRunEnvW) :=
  ⟨by decide, by decide,
   (claim_c3 ingressEnvW oidcRunEnvW).1, (claim_c3 ingressEnvW oidcRunEnvW).2⟩

/-- Claim C7: for every input map (association list with distinct keys),
`RankMapStringInt` returns a permutation of the keys ordered by strictly
decreasing length, equal-length keys in decreasing lexicographic order;
the integer values (and the iteration order) have no effect on the final
order. -/
theorem claim_c7 (values : List (String × Int)) (h : (values.map Prod.fst).Nodup) :
    (RankMapStringInt values).Perm (values.map Prod.fst) ∧
    (RankMapStringInt values).Pairwise
      (fun a b => b.length < a.length ∨
        (a.length = b.length ∧ goStrLt b.toList a.toList = true)) ∧
    (∀ values' : List (String × Int),
      (values'.map Prod.fst).Perm (values.map Prod.fst) →
      RankMapStringInt values' = RankMapStringInt values) := by
  refine ⟨rankMapStringInt_perm values, ?_,
    fun values' hp => rankMapStringInt_keys_perm_eq values values' hp⟩
  have hs := rankMapStringInt_sorted values
  have hnd : (RankMapStringInt values).Nodup :=
    ((rankMapStringInt_perm values).nodup_iff).mpr h
  have hp : (RankMapStringInt values).Pairwise (fun a b => rankedLe a b ∧ a ≠ b) :=
    List.Pairwise.and hs hnd
  refine hp.imp ?_
  intro a b hab
  rcases hab with ⟨hle, hne⟩
  rcases hle with hl | ⟨he, hx⟩
  · exact Or.inl hl
  · refine Or.inr ⟨he, ?_⟩
    cases hba : goStrLt b.toList a.toList with
    | true => rfl
    | false => exact absurd (stringEqOfToList (goStrLt_connex _ _ hx hba)) hne

theorem claim_c7_witness :
    (RankMapStringInt [("a", (1 : Int)), ("bb", 2), ("c", 9)]).Perm
      ([("a", (1 : Int)), ("bb", 2), ("c", 9)].map Prod.fst) ∧
    RankMapStringInt [("c", (0 : Int)), ("a", 5), ("bb", 7)] =
      RankMapStringInt [("a", (1 : Int)), ("bb", 2), ("c", 9)] ∧
    RankMapStringInt [("a", (1 : Int)), ("bb", 2), ("c", 9)] = ["bb", "c", "a"] :=
  ⟨(claim_c7 [("a", (1 : Int)), ("bb", 2), ("c", 9)] (by decide)).1,
   (claim_c7 [("a", (1 : Int)), ("bb", 2), ("c", 9)] (by decide)).2.2
     [("c", (0 : Int)), ("a", 5), ("bb", 7)] (by decide),
   by decide⟩

/-- Claim C8: `getRouteSelector` errors exactly when its input is
non-empty and some comma-separated item contains no `'='`; on the empty
string it returns the empty (non-nil) map and no error; otherwise it
returns the map sending each item's whitespace-trimmed key (text before
the first `'='`) to the whitespace-trimmed text between the first and
second `'='`, discarding any text after a second `'='` (later duplicate
keys overwrite earlier ones). -/
theorem claim_c8 (labelMatch : List Char) :
    ((getRouteSelector labelMatch).isOk = false ↔
      labelMatch ≠ [] ∧ ∃ item ∈ goSplit ',' labelMatch, goContainsChar '=' item = false) ∧
    getRouteSelector [] = .ok [] ∧
    (labelMatch ≠ [] →
      (∀ item ∈ goSplit ',' labelMatch, goContainsChar '=' item = true) →
      getRouteSelector labelMatch =
        .ok ((goSplit ',' labelMatch).foldl
          (fun m item => mapAssign m (specKeyOf item) (specValueOf item)) [])) := by
  refine ⟨?_, rfl, ?_⟩
  · unfold getRouteSelector
    by_cases hlm : labelMatch = []
    · rw [if_pos hlm]
      simp [hlm, Except.isOk, Except.toBool]
    · rw [if_neg hlm]
      rw [routeSelectorLoop_isOk_iff]
      simp [hlm]
  · intro hlm hall
    unfold getRouteSelector
    rw [if_neg hlm]
    exact routeSelectorLoop_ok _ _ hall

theorem claim_c8_witness :
    (getRouteSelector ("a=b,oops".toList)).isOk = false ∧
    getRouteSelector ("k1 = v1 ,k2=v2=v3".toList) =
      .ok [("k1".toList, "v1".toList), ("k2".toList, "v2".toList)] :=
  ⟨(claim_c8 ("a=b,oops".toList)).1.mpr
      ⟨by decide, ("oops".toList), by decide, by decide⟩,
   ((claim_c8 ("k1 = v1 ,k2=v2=v3".toList)).2.2 (by decide) (by decide)).trans (by rfl)⟩

/-- Claim C9: for every non-negative size (and every random draw),
`RandomLabel` returns a byte string of exactly that length in which every
byte at an even index is a lowercase ASCII letter and every byte at an
odd index is a decimal digit. -/
theorem claim_c9 (value size : Nat) :
    (RandomLabel value size).length = size ∧
    (∀ i x, (RandomLabel value size).get? i = some x →
      (i % 2 = 0 → aCode ≤ x ∧ x ≤ zCode) ∧
      (i % 2 = 1 → zeroCode ≤ x ∧ x ≤ nineCode)) := by
  constructor
  · unfold RandomLabel
    rw [randomLabelLoop_length]
    simp
  · intro i x hx
    have hb := randomLabelLoop_bytes size value []
      (by intro j y hy; simp at hy) i x (by simpa [RandomLabel] using hx)
    unfold labelByteOk at hb
    constructor
    · intro hev
      simpa [hev] using hb
    · intro hodd
      have : ¬ i % 2 = 0 := by omega
      simpa [this] using hb

theorem claim_c9_witness :
    (RandomLabel 123456 5).length = 5 ∧ aCode ≤ 98 ∧ 98 ≤ zCode :=
  ⟨(claim_c9 123456 5).1, ((claim_c9 123456 5).2 0 98 (by decide)).1 rfl⟩
